import Mathlib

/-!
Verification of the `Oryol::VertexLayout` core
(src/code/Modules/Gfx/Core/VertexLayout.h).

The header under src/ contains the data members (including the `uint8`
storage of `byteSize` and `byteOffsets` and the `int8` attribute-index
table of size `NumVertexAttrs`) together with the inline queries and the
inline `Component` helpers.  The bodies of `VertexLayout()`, `Clear`,
`Add`, `Append`, `Hash` and `CombinedHash`, the attribute/format code
spaces (Gfx/Core/Enums.h), the capacity constant (Gfx/Core/GfxConfig.h)
and the bounds-checked `StaticArray` are declared but not present under
src/; those parts are modelled from the spec, as marked on each
definition.
-/

namespace Oryol

/-- Modelled from the spec: the attribute code space of Gfx/Core/Enums.h
is not under src/.  The spec treats it as a fixed finite code space of
size `NumVertexAttrs` (16 codes in the source repository: position,
normal, four texture coordinates, tangent, binormal, weights, indices,
two colors, four instance attributes) with a reserved sentinel
`InvalidVertexAttr` outside the counted range.  The spec's `UV0` is
`TexCoord0`. -/
inductive VertexAttr where
  | Position
  | Normal
  | TexCoord0
  | TexCoord1
  | TexCoord2
  | TexCoord3
  | Tangent
  | Binormal
  | Weights
  | Indices
  | Color0
  | Color1
  | Instance0
  | Instance1
  | Instance2
  | Instance3
  | InvalidVertexAttr
deriving DecidableEq, Repr

/-- Modelled from the spec: `VertexAttr::NumVertexAttrs`, the total count
of valid attribute codes; the sentinel lies outside `0..NumVertexAttrs-1`. -/
def NumVertexAttrs : Nat := 16

/-- Modelled from the spec: the numeric value of each attribute code;
valid codes are `0..NumVertexAttrs-1`, the sentinel lies past the end of
the attribute-index table. -/
def VertexAttr.code : VertexAttr → Nat
  | .Position => 0
  | .Normal => 1
  | .TexCoord0 => 2
  | .TexCoord1 => 3
  | .TexCoord2 => 4
  | .TexCoord3 => 5
  | .Tangent => 6
  | .Binormal => 7
  | .Weights => 8
  | .Indices => 9
  | .Color0 => 10
  | .Color1 => 11
  | .Instance0 => 12
  | .Instance1 => 13
  | .Instance2 => 14
  | .Instance3 => 15
  | .InvalidVertexAttr => 16

/-- Modelled from the spec: the vertex format code space of
Gfx/Core/Enums.h is not under src/; a fixed finite code space with the
`InvalidVertexFormat` sentinel. -/
inductive VertexFormat where
  | Float
  | Float2
  | Float3
  | Float4
  | Byte4
  | Byte4N
  | UByte4
  | UByte4N
  | Short2
  | Short2N
  | Short4
  | Short4N
  | InvalidVertexFormat
deriving DecidableEq, Repr

/-- Modelled from the spec: the external format-to-byte-size table
`VertexFormat::ByteSize`; per the spec `Float3` is 12 bytes, `Float2` is
8 bytes, `Float4` is 16 bytes, and an unset format has size zero. -/
def VertexFormat.ByteSize : VertexFormat → Nat
  | .Float => 4
  | .Float2 => 8
  | .Float3 => 12
  | .Float4 => 16
  | .Byte4 => 4
  | .Byte4N => 4
  | .UByte4 => 4
  | .UByte4N => 4
  | .Short2 => 4
  | .Short2N => 4
  | .Short4 => 8
  | .Short4N => 8
  | .InvalidVertexFormat => 0

/-- Modelled from the spec: the step-function code space
`{PerVertex, PerInstance}`. -/
inductive VertexStepFunction where
  | PerVertex
  | PerInstance
deriving DecidableEq, Repr

/-- Numeric value of a step-function code. -/
def VertexStepFunction.code : VertexStepFunction → Nat
  | .PerVertex => 0
  | .PerInstance => 1

/-- Modelled from the spec: `GfxConfig::MaxNumVertexLayoutComponents`,
the fixed compile-time capacity of a vertex layout (16 in the source
repository). -/
def MaxNumVertexLayoutComponents : Nat := 16

/-- Modelled from the spec: the global `InvalidIndex` sentinel stored in
the attribute-index table for attributes that are not present. -/
def InvalidIndex : Int := -1

/-- One component of a vertex layout (VertexLayout.h lines 18-38).
The `uint8` fields `SlotIndex` and `StepRate` are modelled as `Nat`. -/
structure Component where
  Attr : VertexAttr
  Format : VertexFormat
  SlotIndex : Nat
  StepFunction : VertexStepFunction
  StepRate : Nat
deriving DecidableEq, Repr

/-- Default constructor (VertexLayout.h lines 81-89). -/
def Component.default : Component :=
  { Attr := .InvalidVertexAttr
    Format := .InvalidVertexFormat
    SlotIndex := 0
    StepFunction := .PerVertex
    StepRate := 0 }

/-- Constructor from attribute, format and slot (VertexLayout.h
lines 92-100); `slot` defaults to 0 at call sites. -/
def Component.make (attr : VertexAttr) (fmt : VertexFormat) (slot : Nat) : Component :=
  { Attr := attr
    Format := fmt
    SlotIndex := slot
    StepFunction := .PerVertex
    StepRate := 0 }

/-- Constructor for an instanced component (VertexLayout.h
lines 103-109). -/
def Component.Instanced (attr : VertexAttr) (fmt : VertexFormat) (slot : Nat) : Component :=
  { Component.make attr fmt slot with
    StepFunction := .PerInstance
    StepRate := 1 }

/-- Validity check of a component (VertexLayout.h lines 112-115). -/
def Component.IsValid (c : Component) : Bool :=
  decide (c.Attr ≠ VertexAttr.InvalidVertexAttr)

/-- Clearing a component resets `Attr` and `Format` only (VertexLayout.h
lines 118-122). -/
def Component.Clear (c : Component) : Component :=
  { c with Attr := .InvalidVertexAttr, Format := .InvalidVertexFormat }

/-- Byte size of a component, from its format (VertexLayout.h
lines 125-128). -/
def Component.ByteSize (c : Component) : Nat :=
  c.Format.ByteSize

/-- State of a vertex layout (VertexLayout.h lines 72-78): the two
`StaticArray`s of capacity `MaxNumVertexLayoutComponents`, the `int8`
attribute-index table of size `NumVertexAttrs`, the `int8` component
count and the `uint8` running byte size.  The `uint8` fields are `Nat`
values kept below 256 by the explicit `% 256` at each store. -/
structure VertexLayout where
  comps : Fin MaxNumVertexLayoutComponents → Component
  byteOffsets : Fin MaxNumVertexLayoutComponents → Nat
  attrCompIndices : Fin NumVertexAttrs → Int
  numComps : Nat
  byteSize : Nat
deriving DecidableEq

/-- Modelled from the spec: the default constructor `VertexLayout()` is
not under src/; it produces the empty layout (`numComps = 0`,
`byteSize = 0`, all attribute-index entries set to the sentinel). -/
def VertexLayout.empty : VertexLayout :=
  { comps := fun _ => Component.default
    byteOffsets := fun _ => 0
    attrCompIndices := fun _ => InvalidIndex
    numComps := 0
    byteSize := 0 }

/-- Modelled from the spec: the body of `VertexLayout::Clear` is not
under src/; per the spec it resets the layout to the empty state (and
returns the layout itself for chaining, which in this functional model
is the returned value). -/
def VertexLayout.Clear (_l : VertexLayout) : VertexLayout :=
  VertexLayout.empty

/-- Modelled from the spec: the body of `VertexLayout::Add` is not under
src/.  Per the spec it checks `numComps < capacity` and that the
component's attribute is not already present (via the attribute-index
table, which requires the attribute code to be inside the table range),
then appends the component, records the current running byte size as the
new component's offset, adds the component's byte size to the `uint8`
running total (hence the `% 256`, from the `uint8` field in src/), maps
the attribute to the new index and increments the count.  A failed
precondition is a hard failure, modelled as `none`; the argument layout
is left untouched. -/
def VertexLayout.Add (l : VertexLayout) (comp : Component) : Option VertexLayout :=
  if hn : l.numComps < MaxNumVertexLayoutComponents then
    if ha : comp.Attr.code < NumVertexAttrs then
      if l.attrCompIndices ⟨comp.Attr.code, ha⟩ = InvalidIndex then
        some
          { comps := Function.update l.comps ⟨l.numComps, hn⟩ comp
            byteOffsets := Function.update l.byteOffsets ⟨l.numComps, hn⟩ l.byteSize
            attrCompIndices :=
              Function.update l.attrCompIndices ⟨comp.Attr.code, ha⟩ (l.numComps : Int)
            numComps := l.numComps + 1
            byteSize := (l.byteSize + comp.ByteSize) % 256 }
      else none
    else none
  else none

/-- Sequencing of `Add` calls: apply `Add` for each component in order,
propagating the hard failure. -/
def VertexLayout.AddList (l : VertexLayout) : List Component → Option VertexLayout
  | [] => some l
  | c :: cs =>
    match l.Add c with
    | some l2 => l2.AddList cs
    | none => none

/-- The components of a layout in insertion order, `comps[0..numComps)`. -/
def VertexLayout.compsList (l : VertexLayout) : List Component :=
  (List.range l.numComps).map fun i =>
    if h : i < MaxNumVertexLayoutComponents then l.comps ⟨i, h⟩ else Component.default

/-- Modelled from the spec: the body of `VertexLayout::Append` is not
under src/; it adds every component of `other`, in order, with the same
`Add` semantics. -/
def VertexLayout.Append (l : VertexLayout) (other : VertexLayout) : Option VertexLayout :=
  l.AddList other.compsList

/-- Emptiness query (VertexLayout.h lines 143-146). -/
def VertexLayout.Empty (l : VertexLayout) : Bool :=
  l.numComps == 0

/-- Component count query (VertexLayout.h lines 149-152). -/
def VertexLayout.NumComponents (l : VertexLayout) : Nat :=
  l.numComps

/-- Total byte size query (VertexLayout.h lines 161-164): reads the
`uint8` field. -/
def VertexLayout.ByteSize (l : VertexLayout) : Nat :=
  l.byteSize

/-- Component access (VertexLayout.h lines 155-158): indexes the
`StaticArray` of size `MaxNumVertexLayoutComponents`; an out-of-range
index is a bounds-assertion hard failure, modelled as `none`. -/
def VertexLayout.ComponentAt (l : VertexLayout) (index : Nat) : Option Component :=
  if h : index < MaxNumVertexLayoutComponents then some (l.comps ⟨index, h⟩) else none

/-- Component byte offset (VertexLayout.h lines 167-170): indexes the
`StaticArray` of size `MaxNumVertexLayoutComponents`; an out-of-range
index is a bounds-assertion hard failure, modelled as `none`. -/
def VertexLayout.ComponentByteOffset (l : VertexLayout) (index : Nat) : Option Nat :=
  if h : index < MaxNumVertexLayoutComponents then some (l.byteOffsets ⟨index, h⟩) else none

/-- Attribute lookup (VertexLayout.h lines 131-134): indexes the
attribute-index table of size `NumVertexAttrs` directly by the attribute
code; a code outside the table (the `InvalidVertexAttr` sentinel) is a
bounds-assertion hard failure, modelled as `none`. -/
def VertexLayout.ComponentIndexByVertexAttr (l : VertexLayout) (attr : VertexAttr) :
    Option Int :=
  if h : attr.code < NumVertexAttrs then some (l.attrCompIndices ⟨attr.code, h⟩) else none

/-- Containment test (VertexLayout.h lines 137-140): true iff the lookup
does not return `InvalidIndex`; shares the lookup's hard failure on an
out-of-range attribute code. -/
def VertexLayout.Contains (l : VertexLayout) (attr : VertexAttr) : Option Bool :=
  (l.ComponentIndexByVertexAttr attr).map fun i => decide (InvalidIndex ≠ i)

/-- The fields of a component that participate in the layout hash, per
the spec: `(Attr, Format, StepFunction, StepRate)`; the slot index does
not participate. -/
def Component.fieldsTuple (c : Component) :
    VertexAttr × VertexFormat × VertexStepFunction × Nat :=
  (c.Attr, c.Format, c.StepFunction, c.StepRate)

/-- Numeric value of each format code, in declaration order. -/
def VertexFormat.code : VertexFormat → Nat
  | .Float => 0
  | .Float2 => 1
  | .Float3 => 2
  | .Float4 => 3
  | .Byte4 => 4
  | .Byte4N => 5
  | .UByte4 => 6
  | .UByte4N => 7
  | .Short2 => 8
  | .Short2N => 9
  | .Short4 => 10
  | .Short4N => 11
  | .InvalidVertexFormat => 12

/-- Injective digest of one hashed-field tuple. -/
def tupleDigest (t : VertexAttr × VertexFormat × VertexStepFunction × Nat) : Nat :=
  Nat.pair t.1.code (Nat.pair t.2.1.code (Nat.pair t.2.2.1.code t.2.2.2))

/-- Injective digest of a list of numbers. -/
def listDigest : List Nat → Nat
  | [] => 0
  | x :: xs => Nat.pair x (listDigest xs) + 1

/-- Modelled from the spec: the body of `VertexLayout::Hash` is not
under src/.  Per the spec it is a deterministic digest computed from the
ordered sequence of `(Attr, Format, StepFunction, StepRate)` tuples that
must distinguish any two layouts differing in attribute set, order,
format, or step behavior; the required collision-freeness on that domain
is modelled by an injective sequence encoding (the `uint64` range is
idealized as `Nat`). -/
def VertexLayout.Hash (l : VertexLayout) : Nat :=
  listDigest ((l.compsList.map Component.fieldsTuple).map tupleDigest)

/-- Modelled from the spec: the body of `VertexLayout::CombinedHash` is
not under src/.  Per the spec it is a deterministic, order-sensitive
combination of the two independent hashes that must not collide for
distinct pairs more than a generic hash would; modelled as an injective
pairing of the two hashes. -/
def VertexLayout.CombinedHash (l0 l1 : VertexLayout) : Nat :=
  Nat.pair l0.Hash l1.Hash

/-- Total byte size of a list of components. -/
def totalByteSize (cs : List Component) : Nat :=
  (cs.map Component.ByteSize).sum

/-- Prefix sum of the byte sizes of the components before index `i`. -/
def prefixByteSize (cs : List Component) (i : Nat) : Nat :=
  ((cs.take i).map Component.ByteSize).sum

/-- The layout `l` is the state reached by successfully adding the
components `cs`, in order, to the empty layout.  The fields spell out
the spec's data-model invariants at the level of the query functions. -/
structure Models (l : VertexLayout) (cs : List Component) : Prop where
  len_le : cs.length ≤ MaxNumVertexLayoutComponents
  num_eq : l.numComps = cs.length
  validAttrs : ∀ c ∈ cs, c.Attr.code < NumVertexAttrs
  nodupAttrs : (cs.map fun c => c.Attr).Nodup
  compAt_eq : ∀ i (hi : i < cs.length), l.ComponentAt i = some (cs.get ⟨i, hi⟩)
  offset_eq : ∀ i, i < cs.length → l.ComponentByteOffset i = some (prefixByteSize cs i % 256)
  size_eq : l.byteSize = totalByteSize cs % 256
  found : ∀ i (hi : i < cs.length),
    l.ComponentIndexByVertexAttr (cs.get ⟨i, hi⟩).Attr = some (i : Int)
  notFound : ∀ a : VertexAttr, a.code < NumVertexAttrs →
    (∀ i (hi : i < cs.length), (cs.get ⟨i, hi⟩).Attr ≠ a) →
    l.ComponentIndexByVertexAttr a = some InvalidIndex

theorem attrCode_injective : Function.Injective VertexAttr.code := by
  intro a b h
  cases a <;> cases b <;> first | rfl | exact absurd h (by decide)

theorem models_empty : Models VertexLayout.empty [] := by
  refine ⟨by simp [MaxNumVertexLayoutComponents], rfl, by simp, by simp, ?_, ?_, rfl, ?_, ?_⟩
  · intro i hi; exact absurd hi (by simp)
  · intro i hi; exact absurd hi (by simp)
  · intro i hi; exact absurd hi (by simp)
  · intro a ha _
    simp only [VertexLayout.ComponentIndexByVertexAttr, VertexLayout.empty, dif_pos ha]

theorem models_mem_ne_invalid {l : VertexLayout} {cs : List Component} {a : VertexAttr}
    (m : Models l cs) (hmem : a ∈ cs.map fun c => c.Attr) :
    l.ComponentIndexByVertexAttr a ≠ some InvalidIndex := by
  obtain ⟨c, hc, rfl⟩ := List.mem_map.mp hmem
  obtain ⟨i, hi, rfl⟩ := List.mem_iff_getElem.mp hc
  have hfound := m.found i hi
  rw [List.get_eq_getElem] at hfound
  rw [hfound]
  intro hcontra
  have : (i : Int) = InvalidIndex := Option.some.inj hcontra
  simp [InvalidIndex] at this

theorem models_not_mem_invalid {l : VertexLayout} {cs : List Component} {a : VertexAttr}
    (m : Models l cs) (ha : a.code < NumVertexAttrs)
    (hmem : a ∉ cs.map fun c => c.Attr) :
    l.ComponentIndexByVertexAttr a = some InvalidIndex := by
  refine m.notFound a ha ?_
  intro i hi heq
  exact hmem (List.mem_map.mpr ⟨cs.get ⟨i, hi⟩, by rw [List.get_eq_getElem]; exact List.getElem_mem hi, heq⟩)

theorem componentAt_pos (l : VertexLayout) {i : Nat} (h : i < MaxNumVertexLayoutComponents) :
    l.ComponentAt i = some (l.comps ⟨i, h⟩) := by
  rw [VertexLayout.ComponentAt, dif_pos h]

theorem componentByteOffset_pos (l : VertexLayout) {i : Nat}
    (h : i < MaxNumVertexLayoutComponents) :
    l.ComponentByteOffset i = some (l.byteOffsets ⟨i, h⟩) := by
  rw [VertexLayout.ComponentByteOffset, dif_pos h]

theorem lookup_pos (l : VertexLayout) {a : VertexAttr} (h : a.code < NumVertexAttrs) :
    l.ComponentIndexByVertexAttr a = some (l.attrCompIndices ⟨a.code, h⟩) := by
  rw [VertexLayout.ComponentIndexByVertexAttr, dif_pos h]

theorem prefixByteSize_append_left {cs ds : List Component} {i : Nat} (h : i ≤ cs.length) :
    prefixByteSize (cs ++ ds) i = prefixByteSize cs i := by
  unfold prefixByteSize
  rw [List.take_append_eq_append_take, Nat.sub_eq_zero_of_le h, List.take_zero, List.append_nil]

theorem prefixByteSize_length (cs : List Component) :
    prefixByteSize cs cs.length = totalByteSize cs := by
  unfold prefixByteSize totalByteSize
  rw [List.take_length]

theorem totalByteSize_append (cs : List Component) (c : Component) :
    totalByteSize (cs ++ [c]) = totalByteSize cs + c.ByteSize := by
  unfold totalByteSize
  simp

theorem models_add {l l2 : VertexLayout} {cs : List Component} {c : Component}
    (m : Models l cs) (h : l.Add c = some l2) : Models l2 (cs ++ [c]) := by
  rw [VertexLayout.Add] at h
  split at h
  case isFalse => exact absurd h (by simp)
  case isTrue hn =>
  split at h
  case isFalse => exact absurd h (by simp)
  case isTrue ha =>
  split at h
  case isFalse => exact absurd h (by simp)
  case isTrue hinv =>
  simp only [Option.some.injEq] at h
  subst h
  have hlen : cs.length < MaxNumVertexLayoutComponents := m.num_eq ▸ hn
  have hnotmem : c.Attr ∉ cs.map fun x => x.Attr := by
    intro hmem
    exact models_mem_ne_invalid m hmem (by rw [lookup_pos l ha, hinv])
  refine ⟨?_, ?_, ?_, ?_, ?_, ?_, ?_, ?_, ?_⟩
  · simpa using hlen
  · simp [m.num_eq]
  · intro x hx
    rcases List.mem_append.mp hx with hx | hx
    · exact m.validAttrs x hx
    · rw [List.mem_singleton.mp hx]; exact ha
  · rw [List.map_append, List.nodup_append]
    refine ⟨m.nodupAttrs, List.nodup_singleton _, ?_⟩
    intro x hx hx2
    rw [List.mem_singleton.mp hx2] at hx
    exact hnotmem hx
  · intro i hi
    have hi' : i < cs.length + 1 := by simpa using hi
    have hi16 : i < MaxNumVertexLayoutComponents := by omega
    rw [componentAt_pos _ hi16]
    by_cases hic : i = cs.length
    · subst hic
      have hpt : (⟨cs.length, hi16⟩ : Fin MaxNumVertexLayoutComponents) = ⟨l.numComps, hn⟩ :=
        Fin.ext (by simp [m.num_eq])
      dsimp only
      rw [hpt, Function.update_same, List.get_eq_getElem]
      simp
    · have hilt : i < cs.length := by omega
      have hne : (⟨i, hi16⟩ : Fin MaxNumVertexLayoutComponents) ≠ ⟨l.numComps, hn⟩ := by
        intro hcontra
        simp only [Fin.mk.injEq] at hcontra
        exact hic (hcontra.trans m.num_eq)
      simp only [Function.update_noteq hne]
      have hval : l.comps ⟨i, hi16⟩ = cs.get ⟨i, hilt⟩ :=
        Option.some.inj ((componentAt_pos l hi16).symm.trans (m.compAt_eq i hilt))
      rw [hval]
      congr 1
      rw [List.get_eq_getElem, List.get_eq_getElem]
      exact (List.getElem_append_left hilt).symm
  · intro i hi
    have hi' : i < cs.length + 1 := by simpa using hi
    have hi16 : i < MaxNumVertexLayoutComponents := by omega
    rw [componentByteOffset_pos _ hi16]
    by_cases hic : i = cs.length
    · subst hic
      have hpt : (⟨cs.length, hi16⟩ : Fin MaxNumVertexLayoutComponents) = ⟨l.numComps, hn⟩ :=
        Fin.ext (by simp [m.num_eq])
      dsimp only
      rw [hpt, Function.update_same, prefixByteSize_append_left (Nat.le_refl _),
        prefixByteSize_length, m.size_eq]
    · have hilt : i < cs.length := by omega
      have hne : (⟨i, hi16⟩ : Fin MaxNumVertexLayoutComponents) ≠ ⟨l.numComps, hn⟩ := by
        intro hcontra
        simp only [Fin.mk.injEq] at hcontra
        exact hic (hcontra.trans m.num_eq)
      simp only [Function.update_noteq hne]
      have hval : l.byteOffsets ⟨i, hi16⟩ = prefixByteSize cs i % 256 :=
        Option.some.inj ((componentByteOffset_pos l hi16).symm.trans (m.offset_eq i hilt))
      rw [hval, prefixByteSize_append_left (Nat.le_of_lt hilt)]
  · show (l.byteSize + c.ByteSize) % 256 = totalByteSize (cs ++ [c]) % 256
    rw [m.size_eq, Nat.mod_add_mod, totalByteSize_append]
  · intro i hi
    have hi' : i < cs.length + 1 := by simpa using hi
    by_cases hic : i = cs.length
    · subst hic
      have hget : (cs ++ [c]).get ⟨cs.length, hi⟩ = c := by
        rw [List.get_eq_getElem]; simp
      rw [hget, lookup_pos _ ha]
      dsimp only
      rw [Function.update_same]
      congr 1
      simp [m.num_eq]
    · have hilt : i < cs.length := by omega
      have hget : (cs ++ [c]).get ⟨i, hi⟩ = cs.get ⟨i, hilt⟩ := by
        rw [List.get_eq_getElem, List.get_eq_getElem]
        exact List.getElem_append_left hilt
      rw [hget]
      have hmem : cs.get ⟨i, hilt⟩ ∈ cs := by
        rw [List.get_eq_getElem]; exact List.getElem_mem hilt
      have haa : (cs.get ⟨i, hilt⟩).Attr.code < NumVertexAttrs := m.validAttrs _ hmem
      rw [lookup_pos _ haa]
      have hne : (⟨(cs.get ⟨i, hilt⟩).Attr.code, haa⟩ : Fin NumVertexAttrs) ≠
          ⟨c.Attr.code, ha⟩ := by
        intro hcontra
        simp only [Fin.mk.injEq] at hcontra
        exact hnotmem (List.mem_map.mpr ⟨_, hmem, attrCode_injective hcontra⟩)
      dsimp only
      rw [Function.update_noteq hne]
      have hval : l.attrCompIndices ⟨(cs.get ⟨i, hilt⟩).Attr.code, haa⟩ = (i : Int) :=
        Option.some.inj ((lookup_pos l haa).symm.trans (m.found i hilt))
      rw [hval]
  · intro a ha2 hnone
    have hcne : c.Attr ≠ a := by
      have hlast := hnone cs.length (by simp)
      have hget : (cs ++ [c]).get ⟨cs.length, by simp⟩ = c := by
        rw [List.get_eq_getElem]; simp
      rwa [hget] at hlast
    rw [lookup_pos _ ha2]
    have hne : (⟨a.code, ha2⟩ : Fin NumVertexAttrs) ≠ ⟨c.Attr.code, ha⟩ := by
      intro hcontra
      simp only [Fin.mk.injEq] at hcontra
      exact hcne (attrCode_injective hcontra.symm)
    dsimp only
    rw [Function.update_noteq hne]
    have hrest : ∀ i (hi : i < cs.length), (cs.get ⟨i, hi⟩).Attr ≠ a := by
      intro i hi
      have hlt : i < (cs ++ [c]).length := by simp; omega
      have hthis := hnone i hlt
      have hget : (cs ++ [c]).get ⟨i, hlt⟩ = cs.get ⟨i, hi⟩ := by
        rw [List.get_eq_getElem, List.get_eq_getElem]
        exact List.getElem_append_left hi
      rwa [hget] at hthis
    have hval : l.attrCompIndices ⟨a.code, ha2⟩ = InvalidIndex :=
      Option.some.inj ((lookup_pos l ha2).symm.trans (m.notFound a ha2 hrest))
    rw [hval]

theorem models_addList {ds : List Component} :
    ∀ {l l2 : VertexLayout} {cs : List Component},
      Models l cs → l.AddList ds = some l2 → Models l2 (cs ++ ds) := by
  induction ds with
  | nil =>
    intro l l2 cs m h
    rw [VertexLayout.AddList] at h
    rw [List.append_nil]
    rw [Option.some.inj h] at m
    exact m
  | cons d ds ih =>
    intro l l2 cs m h
    rw [VertexLayout.AddList] at h
    cases hadd : l.Add d with
    | none => rw [hadd] at h; exact absurd h (by simp)
    | some lmid =>
      rw [hadd] at h
      have m2 := models_add m hadd
      have m3 := ih m2 h
      rwa [List.append_assoc, List.singleton_append] at m3

theorem models_run {cs : List Component} {l : VertexLayout}
    (h : VertexLayout.empty.AddList cs = some l) : Models l cs := by
  have := models_addList models_empty h
  rwa [List.nil_append] at this

theorem models_compsList {l : VertexLayout} {cs : List Component} (m : Models l cs) :
    l.compsList = cs := by
  apply List.ext_getElem
  · simp [VertexLayout.compsList, m.num_eq]
  · intro i h1 h2
    simp only [VertexLayout.compsList, List.getElem_map, List.getElem_range]
    have hi16 : i < MaxNumVertexLayoutComponents := lt_of_lt_of_le h2 m.len_le
    rw [dif_pos hi16]
    have hval : l.comps ⟨i, hi16⟩ = cs.get ⟨i, h2⟩ :=
      Option.some.inj ((componentAt_pos l hi16).symm.trans (m.compAt_eq i h2))
    rw [hval, List.get_eq_getElem]

theorem add_none_of_mem {l : VertexLayout} {cs : List Component} {c : Component}
    (m : Models l cs) (hmem : c.Attr ∈ cs.map fun x => x.Attr) : l.Add c = none := by
  cases hres : l.Add c with
  | none => rfl
  | some l2 =>
    have m2 := models_add m hres
    have hnodup := m2.nodupAttrs
    rw [List.map_append, List.nodup_append] at hnodup
    exact absurd (hnodup.2.2 hmem (by simp)) (by simp)

theorem add_none_of_full {l : VertexLayout} {c : Component}
    (hfull : ¬ l.numComps < MaxNumVertexLayoutComponents) : l.Add c = none := by
  rw [VertexLayout.Add, dif_neg hfull]

theorem addList_none_of_collision {l : VertexLayout} {cs ds : List Component}
    (m : Models l cs) (hcoll : ∃ d ∈ ds, d.Attr ∈ cs.map fun x => x.Attr) :
    l.AddList ds = none := by
  cases hres : l.AddList ds with
  | none => rfl
  | some l2 =>
    obtain ⟨d, hd, hdmem⟩ := hcoll
    have m2 := models_addList m hres
    have hnodup := m2.nodupAttrs
    rw [List.map_append, List.nodup_append] at hnodup
    exact absurd (hnodup.2.2 hdmem (List.mem_map.mpr ⟨d, hd, rfl⟩)) (by simp)

theorem formatCode_injective : Function.Injective VertexFormat.code := by
  intro a b h
  cases a <;> cases b <;> first | rfl | exact absurd h (by decide)

theorem stepFunctionCode_injective : Function.Injective VertexStepFunction.code := by
  intro a b h
  cases a <;> cases b <;> first | rfl | exact absurd h (by decide)

theorem tupleDigest_injective : Function.Injective tupleDigest := by
  intro t1 t2 h
  obtain ⟨a1, f1, s1, r1⟩ := t1
  obtain ⟨a2, f2, s2, r2⟩ := t2
  unfold tupleDigest at h
  simp only at h
  obtain ⟨h1, h2⟩ := Nat.pair_eq_pair.mp h
  obtain ⟨h3, h4⟩ := Nat.pair_eq_pair.mp h2
  obtain ⟨h5, h6⟩ := Nat.pair_eq_pair.mp h4
  rw [Prod.mk.injEq, Prod.mk.injEq, Prod.mk.injEq]
  exact ⟨attrCode_injective h1,
    formatCode_injective h3, stepFunctionCode_injective h5, h6⟩

theorem listDigest_injective : Function.Injective listDigest := by
  intro xs
  induction xs with
  | nil =>
    intro ys h
    cases ys with
    | nil => rfl
    | cons y ys => exact absurd h.symm (by simp [listDigest])
  | cons x xs ih =>
    intro ys h
    cases ys with
    | nil => exact absurd h (by simp [listDigest])
    | cons y ys =>
      simp only [listDigest, Nat.add_right_cancel_iff] at h
      obtain ⟨h1, h2⟩ := Nat.pair_eq_pair.mp h
      rw [h1, ih h2]

theorem hash_eq_iff {l0 l1 : VertexLayout} :
    l0.Hash = l1.Hash ↔
      l0.compsList.map Component.fieldsTuple = l1.compsList.map Component.fieldsTuple := by
  constructor
  · intro h
    exact List.map_injective_iff.mpr tupleDigest_injective (listDigest_injective h)
  · intro h
    unfold VertexLayout.Hash
    rw [h]

theorem combinedHash_ne_of_fields_ne {l0 l1 : VertexLayout}
    (h : l0.compsList.map Component.fieldsTuple ≠ l1.compsList.map Component.fieldsTuple) :
    l0.CombinedHash l1 ≠ l1.CombinedHash l0 := by
  intro hc
  unfold VertexLayout.CombinedHash at hc
  exact h (hash_eq_iff.mp (Nat.pair_eq_pair.mp hc).1)

/-- Position component with format `Float3` (12 bytes), slot 0. -/
def posComp : Component := Component.make .Position .Float3 0

/-- Normal component with format `Float3` (12 bytes), slot 0. -/
def normalComp : Component := Component.make .Normal .Float3 0

/-- Texture-coordinate component (the spec calls the attribute `UV0`)
with format `Float2` (8 bytes), slot 0. -/
def uv0Comp : Component := Component.make .TexCoord0 .Float2 0

/-- Layout A of the spec Append scenario: a single Position component. -/
def layoutA : VertexLayout := (VertexLayout.empty.Add posComp).getD VertexLayout.empty

/-- Layout B of the spec Append scenario: Normal then UV0. -/
def layoutB : VertexLayout :=
  (VertexLayout.empty.AddList [normalComp, uv0Comp]).getD VertexLayout.empty

/-- Result of appending layout B onto layout A. -/
def layoutAB : VertexLayout := (layoutA.Append layoutB).getD VertexLayout.empty

/-- A two-component layout used as a concrete witness input. -/
def layoutPN : VertexLayout :=
  (VertexLayout.empty.AddList [posComp, normalComp]).getD VertexLayout.empty

/-- All sixteen attributes with the 16-byte `Float4` format: a valid Add
sequence that drives the total byte size to 256. -/
def float4Comps : List Component :=
  [Component.make .Position .Float4 0, Component.make .Normal .Float4 0,
   Component.make .TexCoord0 .Float4 0, Component.make .TexCoord1 .Float4 0,
   Component.make .TexCoord2 .Float4 0, Component.make .TexCoord3 .Float4 0,
   Component.make .Tangent .Float4 0, Component.make .Binormal .Float4 0,
   Component.make .Weights .Float4 0, Component.make .Indices .Float4 0,
   Component.make .Color0 .Float4 0, Component.make .Color1 .Float4 0,
   Component.make .Instance0 .Float4 0, Component.make .Instance1 .Float4 0,
   Component.make .Instance2 .Float4 0, Component.make .Instance3 .Float4 0]

/-- The full-capacity layout built from `float4Comps`. -/
def fullLayout : VertexLayout :=
  (VertexLayout.empty.AddList float4Comps).getD VertexLayout.empty

/-- Position component bound to buffer slot 1; differs from `posComp`
only in `SlotIndex`. -/
def posCompSlot1 : Component := Component.make .Position .Float3 1

/-- Single-component layout holding `posComp`. -/
def slotLayout0 : VertexLayout := (VertexLayout.empty.Add posComp).getD VertexLayout.empty

/-- Single-component layout holding `posCompSlot1`. -/
def slotLayout1 : VertexLayout :=
  (VertexLayout.empty.Add posCompSlot1).getD VertexLayout.empty

/-- C1 counterexample: the claim fails as stated for reachable sums at
256.  Adding all sixteen attributes with the 16-byte Float4 format is a
valid Add sequence whose format byte sizes sum to 256, yet `ByteSize()`
returns 0 because the `uint8` field wraps. -/
theorem byteSize_uint8_overflow_cex :
    (VertexLayout.empty.AddList float4Comps).map VertexLayout.ByteSize = some 0 ∧
    (float4Comps.map Component.ByteSize).sum = 256 ∧
    (VertexLayout.empty.AddList float4Comps).map VertexLayout.ByteSize ≠
      some ((float4Comps.map Component.ByteSize).sum) := by
  refine ⟨rfl, by decide, by decide⟩

/-- C1 (amended): for every sequence of valid `Add` calls, `ByteSize()`
equals the sum of the added components' format byte sizes reduced modulo
256, and `ComponentByteOffset(i)` equals the prefix sum of the byte
sizes of components `0..i-1` reduced modulo 256 (the `uint8` storage in
the source wraps at 256; below 256 these are the exact sums). -/
theorem byteSize_and_offsets_are_mod256 (cs : List Component) (l : VertexLayout)
    (h : VertexLayout.empty.AddList cs = some l) :
    l.ByteSize = totalByteSize cs % 256 ∧
    ∀ i, i < cs.length → l.ComponentByteOffset i = some (prefixByteSize cs i % 256) := by
  have m := models_run h
  exact ⟨m.size_eq, m.offset_eq⟩

/-- Witness for the amended C1 theorem at a concrete two-component
layout. -/
theorem byteSize_and_offsets_are_mod256_witness :
    layoutPN.ByteSize = totalByteSize [posComp, normalComp] % 256 ∧
    layoutPN.ComponentByteOffset 1 = some (prefixByteSize [posComp, normalComp] 1 % 256) := by
  have h := byteSize_and_offsets_are_mod256 [posComp, normalComp] layoutPN rfl
  exact ⟨h.1, h.2 1 (by decide)⟩

/-- C2: adding a component whose attribute is already present in the
layout is a hard failure, directly via `Add` or transitively via
`Append` of a layout containing a colliding attribute.  In this
functional model a hard failure returns `none` and the original layout
value is untouched by construction, so no mutation occurs. -/
theorem duplicate_attr_add_fails (cs : List Component) (l : VertexLayout) (c : Component)
    (h : VertexLayout.empty.AddList cs = some l)
    (hdup : c.Attr ∈ cs.map fun x => x.Attr) :
    l.Add c = none ∧
    ∀ (ds : List Component) (other : VertexLayout),
      VertexLayout.empty.AddList ds = some other →
      c.Attr ∈ ds.map (fun x => x.Attr) →
      l.Append other = none := by
  have m := models_run h
  refine ⟨add_none_of_mem m hdup, ?_⟩
  intro ds other h2 hmem2
  have m2 := models_run h2
  rw [VertexLayout.Append, models_compsList m2]
  apply addList_none_of_collision m
  obtain ⟨d, hd, hdeq⟩ := List.mem_map.mp hmem2
  exact ⟨d, hd, hdeq.symm ▸ hdup⟩

/-- Witness for the C2 theorem: a duplicate Position add and a colliding
Append both fail on a concrete layout. -/
theorem duplicate_attr_add_fails_witness :
    layoutPN.Add (Component.make .Position .Float2 0) = none ∧
    layoutPN.Append slotLayout1 = none := by
  have h := duplicate_attr_add_fails [posComp, normalComp] layoutPN
    (Component.make .Position .Float2 0) rfl (by decide)
  exact ⟨h.1, h.2 [posCompSlot1] slotLayout1 rfl (by decide)⟩

/-- C3: a layout never exceeds the fixed capacity, and once `numComps`
equals `MaxNumVertexLayoutComponents` every further `Add` — and every
`Append` of a non-empty layout — is a hard failure. -/
theorem capacity_enforced (cs : List Component) (l : VertexLayout)
    (h : VertexLayout.empty.AddList cs = some l) :
    l.NumComponents ≤ MaxNumVertexLayoutComponents ∧
    (l.NumComponents = MaxNumVertexLayoutComponents →
      (∀ c : Component, l.Add c = none) ∧
      ∀ (ds : List Component) (other : VertexLayout),
        VertexLayout.empty.AddList ds = some other → other.Empty = false →
        l.Append other = none) := by
  have m := models_run h
  constructor
  · show l.numComps ≤ _
    rw [m.num_eq]
    exact m.len_le
  · intro hfull
    have hnotlt : ¬ l.numComps < MaxNumVertexLayoutComponents := by
      have : l.numComps = MaxNumVertexLayoutComponents := hfull
      omega
    refine ⟨fun c => add_none_of_full hnotlt, ?_⟩
    intro ds other h2 hne
    have m2 := models_run h2
    rw [VertexLayout.Append, models_compsList m2]
    cases ds with
    | nil =>
      exfalso
      have hzero : other.numComps = 0 := by simpa using m2.num_eq
      rw [VertexLayout.Empty] at hne
      simp [hzero] at hne
    | cons d ds2 =>
      rw [VertexLayout.AddList, add_none_of_full hnotlt]

/-- Witness for the C3 theorem: an `Add` to the full sixteen-component
layout fails. -/
theorem capacity_enforced_witness :
    fullLayout.Add (Component.make .Position .Float 0) = none := by
  have h := capacity_enforced float4Comps fullLayout rfl
  exact (h.2 (by decide)).1 _

/-- C4: for every layout built by valid `Add` calls, every added
attribute is contained and looks up to its insertion index, and every
valid attribute never added is not contained and looks up to the
`InvalidIndex` sentinel. -/
theorem attr_lookup_correct (cs : List Component) (l : VertexLayout)
    (h : VertexLayout.empty.AddList cs = some l) :
    (∀ i (hi : i < cs.length),
        l.Contains (cs.get ⟨i, hi⟩).Attr = some true ∧
        l.ComponentIndexByVertexAttr (cs.get ⟨i, hi⟩).Attr = some (i : Int)) ∧
    (∀ a : VertexAttr, a.code < NumVertexAttrs → (a ∉ cs.map fun x => x.Attr) →
        l.Contains a = some false ∧
        l.ComponentIndexByVertexAttr a = some InvalidIndex) := by
  have m := models_run h
  constructor
  · intro i hi
    have hf := m.found i hi
    refine ⟨?_, hf⟩
    rw [VertexLayout.Contains, hf]
    simp [InvalidIndex]
  · intro a ha hnot
    have hv := models_not_mem_invalid m ha hnot
    refine ⟨?_, hv⟩
    rw [VertexLayout.Contains, hv]
    simp [InvalidIndex]

/-- Witness for the C4 theorem at a concrete two-component layout. -/
theorem attr_lookup_correct_witness :
    (layoutPN.Contains ([posComp, normalComp].get ⟨1, by decide⟩).Attr = some true ∧
      layoutPN.ComponentIndexByVertexAttr ([posComp, normalComp].get ⟨1, by decide⟩).Attr =
        some ((1 : Nat) : Int)) ∧
    (layoutPN.Contains VertexAttr.Color0 = some false ∧
      layoutPN.ComponentIndexByVertexAttr VertexAttr.Color0 = some InvalidIndex) := by
  have h := attr_lookup_correct [posComp, normalComp] layoutPN rfl
  exact ⟨h.1 1 (by decide), h.2 VertexAttr.Color0 (by decide) (by decide)⟩

/-- C5: `Hash()` is a pure function of the ordered sequence of
`(Attr, Format, StepFunction, StepRate)` component contents — two
layouts have equal hashes exactly when those sequences coincide, however
the layouts were built; so identical content gives equal hashes, and
reordering, dropping a component, or changing one component's format or
step function changes the hash. -/
theorem hash_pure_function_of_sequence (l0 l1 : VertexLayout) :
    l0.Hash = l1.Hash ↔
      l0.compsList.map Component.fieldsTuple = l1.compsList.map Component.fieldsTuple :=
  hash_eq_iff

/-- C6 counterexample: two layouts that differ as component sequences —
only in the slot index — have equal hashes (the hash covers
`(Attr, Format, StepFunction, StepRate)` only), so their combined hash
is the same in both orders; the claim fails for this distinct pair. -/
theorem combinedHash_slot_symmetric_cex :
    slotLayout0 ≠ slotLayout1 ∧
    slotLayout0.compsList ≠ slotLayout1.compsList ∧
    slotLayout0.CombinedHash slotLayout1 = slotLayout1.CombinedHash slotLayout0 := by
  refine ⟨by decide, by decide, by decide⟩

/-- C6 (amended): `CombinedHash(l0, l1) ≠ CombinedHash(l1, l0)` whenever
the two layouts differ in their hashed `(Attr, Format, StepFunction,
StepRate)` component sequences (rather than for every pair of distinct
layouts: a difference confined to slot indices is invisible to the
hash). -/
theorem combinedHash_order_sensitive (l0 l1 : VertexLayout)
    (h : l0.compsList.map Component.fieldsTuple ≠ l1.compsList.map Component.fieldsTuple) :
    l0.CombinedHash l1 ≠ l1.CombinedHash l0 :=
  combinedHash_ne_of_fields_ne h

/-- Witness for the amended C6 theorem on two concrete layouts with
different attribute content. -/
theorem combinedHash_order_sensitive_witness :
    layoutA.CombinedHash layoutB ≠ layoutB.CombinedHash layoutA :=
  combinedHash_order_sensitive layoutA layoutB (by decide)

/-- C7 counterexample: the attribute lookup and the containment test
fail (out-of-range table access) on the `InvalidVertexAttr` sentinel
argument, and `ComponentByteOffset` fails at an out-of-range index, so
neither is total as the claim states. -/
theorem query_sentinel_arg_cex :
    VertexLayout.empty.ComponentIndexByVertexAttr VertexAttr.InvalidVertexAttr = none ∧
    VertexLayout.empty.Contains VertexAttr.InvalidVertexAttr = none ∧
    VertexLayout.empty.ComponentByteOffset MaxNumVertexLayoutComponents = none := by
  refine ⟨rfl, rfl, rfl⟩

/-- C7 (amended): `Contains` and `ComponentIndexByVertexAttr` are total
for every valid attribute code, returning sentinel values rather than
failing; `ComponentAt` and `ComponentByteOffset` are defined exactly on
indices below `MaxNumVertexLayoutComponents`; and the lookup queries
fail on the `InvalidVertexAttr` sentinel argument (an out-of-range
access of the attribute-index table). -/
theorem query_totality_domains :
    (∀ (l : VertexLayout) (a : VertexAttr), a.code < NumVertexAttrs →
        (∃ j, l.ComponentIndexByVertexAttr a = some j) ∧ ∃ b, l.Contains a = some b) ∧
    (∀ (l : VertexLayout) (i : Nat), i < MaxNumVertexLayoutComponents →
        (∃ c, l.ComponentAt i = some c) ∧ ∃ n, l.ComponentByteOffset i = some n) ∧
    (∀ (l : VertexLayout) (i : Nat), MaxNumVertexLayoutComponents ≤ i →
        l.ComponentAt i = none ∧ l.ComponentByteOffset i = none) ∧
    ∀ l : VertexLayout,
      l.ComponentIndexByVertexAttr VertexAttr.InvalidVertexAttr = none ∧
      l.Contains VertexAttr.InvalidVertexAttr = none := by
  refine ⟨?_, ?_, ?_, ?_⟩
  · intro l a ha
    refine ⟨⟨_, lookup_pos l ha⟩, ⟨decide (InvalidIndex ≠ l.attrCompIndices ⟨a.code, ha⟩), ?_⟩⟩
    rw [VertexLayout.Contains, lookup_pos l ha]
    rfl
  · intro l i hi
    exact ⟨⟨_, componentAt_pos l hi⟩, ⟨_, componentByteOffset_pos l hi⟩⟩
  · intro l i hi
    constructor
    · rw [VertexLayout.ComponentAt, dif_neg (by omega)]
    · rw [VertexLayout.ComponentByteOffset, dif_neg (by omega)]
  · intro l
    constructor
    · rw [VertexLayout.ComponentIndexByVertexAttr, dif_neg (by decide)]
    · rw [VertexLayout.Contains, VertexLayout.ComponentIndexByVertexAttr, dif_neg (by decide)]
      rfl

/-- Witness for the amended C7 theorem at a concrete layout and
attribute. -/
theorem query_totality_domains_witness :
    (∃ j, VertexLayout.empty.ComponentIndexByVertexAttr VertexAttr.Position = some j) ∧
    ∃ b, VertexLayout.empty.Contains VertexAttr.Position = some b :=
  query_totality_domains.1 VertexLayout.empty VertexAttr.Position (by decide)

/-- C8: `Clear()` on any layout yields exactly the default-constructed
empty state — `Empty()` is true, no components, zero byte size, every
valid attribute lookup returns the sentinel — and the result value is
the (chainable) layout itself. -/
theorem clear_resets_to_empty (l : VertexLayout) :
    l.Clear = VertexLayout.empty ∧
    (l.Clear).Empty = true ∧
    (l.Clear).NumComponents = 0 ∧
    (l.Clear).ByteSize = 0 ∧
    ∀ a : VertexAttr, a.code < NumVertexAttrs →
      (l.Clear).ComponentIndexByVertexAttr a = some InvalidIndex := by
  refine ⟨rfl, rfl, rfl, rfl, ?_⟩
  intro a ha
  rw [VertexLayout.Clear, lookup_pos _ ha]
  rfl

/-- Witness for the C8 theorem on a concrete non-empty layout. -/
theorem clear_resets_to_empty_witness :
    layoutPN.Clear = VertexLayout.empty ∧
    layoutPN.Clear.ComponentIndexByVertexAttr VertexAttr.Position = some InvalidIndex := by
  have h := clear_resets_to_empty layoutPN
  exact ⟨h.1, h.2.2.2.2 VertexAttr.Position (by decide)⟩

/-- C9: `Append(other)` adds every component of `other`, in order, with
the same `Add` semantics; concretely, appending B = {Normal, UV0} (sizes
12 and 8) onto A = {Position} (size 12) yields three components in order
Position, Normal, UV0 with byte offsets 0, 12, 24 and total byte size
32. -/
theorem append_adds_in_order :
    (∀ (l : VertexLayout) (ds : List Component) (other : VertexLayout),
        VertexLayout.empty.AddList ds = some other → l.Append other = l.AddList ds) ∧
    layoutA.Append layoutB = some layoutAB ∧
    layoutAB.NumComponents = 3 ∧
    layoutAB.ComponentAt 0 = some posComp ∧
    layoutAB.ComponentAt 1 = some normalComp ∧
    layoutAB.ComponentAt 2 = some uv0Comp ∧
    layoutAB.ComponentByteOffset 0 = some 0 ∧
    layoutAB.ComponentByteOffset 1 = some 12 ∧
    layoutAB.ComponentByteOffset 2 = some 24 ∧
    layoutAB.ByteSize = 32 := by
  refine ⟨?_, rfl, rfl, by decide, by decide, by decide, by decide, by decide, by decide, rfl⟩
  intro l ds other h
  rw [VertexLayout.Append, models_compsList (models_run h)]

/-- Witness for the C9 theorem: the general Append equation applied to
the concrete layouts A and B. -/
theorem append_adds_in_order_witness :
    layoutA.Append layoutB = layoutA.AddList [normalComp, uv0Comp] :=
  append_adds_in_order.1 layoutA [normalComp, uv0Comp] layoutB rfl

/-- C10: `Component::Clear()` resets only `Attr` and `Format`; the
`SlotIndex`, `StepFunction` and `StepRate` fields are left unchanged, so
a cleared instanced component still carries `PerInstance` stepping with
rate 1 and is not field-for-field equal to a default-constructed
component. -/
theorem component_clear_preserves_step_fields :
    (∀ c : Component,
        c.Clear.Attr = VertexAttr.InvalidVertexAttr ∧
        c.Clear.Format = VertexFormat.InvalidVertexFormat ∧
        c.Clear.SlotIndex = c.SlotIndex ∧
        c.Clear.StepFunction = c.StepFunction ∧
        c.Clear.StepRate = c.StepRate) ∧
    (Component.Instanced VertexAttr.Position VertexFormat.Float4 1).Clear.StepFunction =
      VertexStepFunction.PerInstance ∧
    (Component.Instanced VertexAttr.Position VertexFormat.Float4 1).Clear.StepRate = 1 ∧
    (Component.Instanced VertexAttr.Position VertexFormat.Float4 1).Clear ≠
      Component.default := by
  refine ⟨fun c => ⟨rfl, rfl, rfl, rfl, rfl⟩, rfl, rfl, by decide⟩

end Oryol
